import Mathlib

set_option maxHeartbeats 1000000

/-!
Verification of the ShadowLog privacy-retention policy engine.

The definitions below are a shallow embedding of the JavaScript sources:
`shared/rule-schema.js` (rule validation, pattern compilation),
`background/rules-engine.js` (rule compilation cache, URL evaluation,
action/timing merging), the deletion engine (`executeActions` and the
URL-equivalence helpers), and the retry buffer and deletion pipeline in
`background/main.js`.  Host capabilities (the browser's RegExp engine,
URL parser, history/site-data/cache APIs, storage and the clock) are
modelled explicitly: regular expressions by a literal/wildcard matcher
over the pattern subset the engine uses, URLs by a structural parser,
asynchronous capability outcomes by environment records, and timestamps
by naturals.
-/

namespace ShadowLog

/-- Per-kind action value of a rule: `'delete'` or `'keep'`. -/
inductive Action where
  | delete
  | keep
deriving DecidableEq, Repr

/-- The four action kinds of `rule.actions` (history, cookies, cache, siteData). -/
inductive ActionKind where
  | history
  | cookies
  | cache
  | siteData
deriving DecidableEq, Repr

/-- The `actions` object of a rule or of a merged action plan. -/
structure Actions where
  history : Action
  cookies : Action
  cache : Action
  siteData : Action
deriving DecidableEq, Repr

/-- Projection of an `Actions` object at one of its four keys. -/
def Actions.get (a : Actions) : ActionKind → Action
  | ActionKind.history => a.history
  | ActionKind.cookies => a.cookies
  | ActionKind.cache => a.cache
  | ActionKind.siteData => a.siteData

/-- The `timing` object of a rule. -/
structure Timing where
  asap : Bool
  onTabClose : Bool
  onBrowserClose : Bool
  periodicMinutes : Option Nat
deriving DecidableEq, Repr

/-- The `safety` object of a rule. -/
structure Safety where
  maxDeletesPerMinute : Nat
  cooldownSeconds : Nat
deriving DecidableEq, Repr

/-- One match produced by `evaluateUrl` for one rule (rules-engine.js lines 69-75). -/
structure Match where
  ruleId : String
  ruleName : String
  actions : Actions
  timing : Timing
  safety : Safety
deriving DecidableEq, Repr

/-- The all-keep initial accumulator of `mergeActions` (rules-engine.js lines 82-87). -/
def mergeInit : Actions :=
  { history := Action.keep, cookies := Action.keep, cache := Action.keep, siteData := Action.keep }

/-- One iteration of the `mergeActions` loop body (rules-engine.js lines 89-95):
for each key, the merged value becomes `delete` when the match requests `delete`. -/
def mergeStep (acc : Actions) (m : Match) : Actions :=
  { history := if m.actions.history = Action.delete then Action.delete else acc.history
    cookies := if m.actions.cookies = Action.delete then Action.delete else acc.cookies
    cache := if m.actions.cache = Action.delete then Action.delete else acc.cache
    siteData := if m.actions.siteData = Action.delete then Action.delete else acc.siteData }

/-- `mergeActions(matchResults)` from rules-engine.js lines 81-98. -/
def mergeActions (matchResults : List Match) : Actions :=
  matchResults.foldl mergeStep mergeInit

theorem mergeStep_get (acc : Actions) (m : Match) (k : ActionKind) :
    (mergeStep acc m).get k = Action.delete ↔
      acc.get k = Action.delete ∨ m.actions.get k = Action.delete := by
  cases k <;> dsimp only [mergeStep, Actions.get] <;> split <;> simp_all

theorem foldl_mergeStep_get (ms : List Match) (acc : Actions) (k : ActionKind) :
    (List.foldl mergeStep acc ms).get k = Action.delete ↔
      acc.get k = Action.delete ∨ ∃ m ∈ ms, m.actions.get k = Action.delete := by
  induction ms generalizing acc with
  | nil => simp
  | cons m ms ih =>
    simp only [List.foldl_cons, ih, mergeStep_get, List.mem_cons]
    constructor
    · rintro (⟨h | h⟩ | ⟨x, hx, h⟩)
      · exact Or.inl h
      · exact Or.inr ⟨m, Or.inl rfl, h⟩
      · exact Or.inr ⟨x, Or.inr hx, h⟩
    · rintro (h | ⟨x, hx | hx, h⟩)
      · exact Or.inl (Or.inl h)
      · exact Or.inl (Or.inr (hx ▸ h))
      · exact Or.inr ⟨x, hx, h⟩

theorem mergeInit_get (k : ActionKind) : mergeInit.get k = Action.keep := by
  cases k <;> rfl

/-- C2: for every list of matches `mergeActions` yields `delete` for an action
kind iff at least one match requests `delete` for that kind, and with zero
matches every kind is `keep`. -/
theorem mergeActions_delete_iff :
    (∀ (ms : List Match) (k : ActionKind),
        (mergeActions ms).get k = Action.delete ↔
          ∃ m ∈ ms, m.actions.get k = Action.delete)
    ∧ mergeActions [] = mergeInit := by
  constructor
  · intro ms k
    rw [mergeActions, foldl_mergeStep_get, mergeInit_get]
    simp
  · rfl

/-- Token of a compiled pattern: a literal character or the `.` wildcard. -/
inductive RTok where
  | lit : Char → RTok
  | anyChar
deriving DecidableEq, Repr

/-- Regex metacharacters outside the modelled pattern subset. -/
def regexMeta : List Char := ['[', ']', '(', ')', '\x7b', '\x7d', '*', '+', '?', '|', '^', '$']

/-- Model of the host RegExp engine's pattern parser, restricted to the
pattern subset the rules use: literal characters, backslash escapes (such as
`\.`) and the `.` wildcard.  A trailing lone backslash is a genuine RegExp
syntax error; the remaining metacharacters are outside the modelled subset
and are treated as failing to compile. -/
def lexPattern : List Char → Option (List RTok)
  | [] => some []
  | ['\\'] => none
  | '\\' :: c :: rest => (lexPattern rest).map (fun ts => RTok.lit c :: ts)
  | '.' :: rest => (lexPattern rest).map (fun ts => RTok.anyChar :: ts)
  | c :: rest =>
    if c ∈ regexMeta then none else (lexPattern rest).map (fun ts => RTok.lit c :: ts)

/-- A compiled case-insensitive regular expression (the value wrapped by the
`regex` field of `compileRegex`'s result): its literals are stored
lower-cased. -/
structure JsRegex where
  toks : List RTok
deriving DecidableEq, Repr

/-- Matching of one pattern token against one input character. -/
def tokMatches : RTok → Char → Bool
  | RTok.lit c, x => c = x
  | RTok.anyChar, _ => true

/-- Anchored match of a token list against a prefix of the input. -/
def matchHere : List RTok → List Char → Bool
  | [], _ => true
  | _ :: _, [] => false
  | t :: ts, c :: cs => tokMatches t c && matchHere ts cs

/-- Unanchored search: try an anchored match at every start position. -/
def searchFrom (ts : List RTok) : List Char → Bool
  | [] => matchHere ts []
  | c :: cs => matchHere ts (c :: cs) || searchFrom ts cs

/-- `regex.test(url)`: unanchored search; the `'i'` flag is modelled by
lower-casing both the compiled literals (in `compileRegex`) and the input. -/
def JsRegex.test (re : JsRegex) (s : String) : Bool :=
  searchFrom re.toks (s.data.map Char.toLower)

/-- Result shape of `compileRegex`: `{regex, error}`. -/
structure CompileResult where
  regex : Option JsRegex
  error : Option String
deriving DecidableEq, Repr

/-- `compileRegex(pattern)` from rule-schema.js lines 118-128: an empty
pattern is rejected up front; otherwise the pattern is compiled with the
case-insensitive flag, and a pattern the RegExp engine rejects yields a
descriptive error instead of a matcher. -/
def compileRegex (pattern : String) : CompileResult :=
  if pattern = "" then { regex := none, error := some "Pattern must be a non-empty string" }
  else
    match lexPattern (pattern.data.map Char.toLower) with
    | some ts => { regex := some { toks := ts }, error := none }
    | none => { regex := none, error := some "invalid regular expression" }

/-- A compiled rule of the rules-engine cache (rules-engine.js lines 19-27). -/
structure CompiledRule where
  id : String
  name : String
  urlRegexCompiled : List JsRegex
  excludeRegexCompiled : List JsRegex
  actions : Actions
  timing : Timing
  safety : Safety
deriving DecidableEq, Repr

/-- The match record pushed by `evaluateUrl` (rules-engine.js lines 69-75). -/
def toMatch (rule : CompiledRule) : Match :=
  { ruleId := rule.id, ruleName := rule.name, actions := rule.actions,
    timing := rule.timing, safety := rule.safety }

/-- A rule matches a URL iff some include pattern matches and no exclude
pattern matches (the two checks of rules-engine.js lines 62-67). -/
def ruleMatches (rule : CompiledRule) (url : String) : Bool :=
  (rule.urlRegexCompiled.any fun re => re.test url) &&
    !(rule.excludeRegexCompiled.any fun re => re.test url)

/-- One iteration of the `evaluateUrl` loop (rules-engine.js lines 60-76):
skip when no include pattern matches, skip when some exclude pattern matches,
otherwise append the match. -/
def evalStep (url : String) (ms : List Match) (rule : CompiledRule) : List Match :=
  if !(rule.urlRegexCompiled.any fun re => re.test url) then ms
  else if rule.excludeRegexCompiled.any fun re => re.test url then ms
  else ms ++ [toMatch rule]

/-- `evaluateUrl(url)` from rules-engine.js lines 57-79, over the compiled
rule cache it iterates. -/
def evaluateUrl (compiledRules : List CompiledRule) (url : String) : List Match :=
  compiledRules.foldl (evalStep url) []

theorem evalStep_eq (url : String) (acc : List Match) (rule : CompiledRule) :
    evalStep url acc rule = if ruleMatches rule url then acc ++ [toMatch rule] else acc := by
  unfold evalStep ruleMatches
  by_cases h1 : (rule.urlRegexCompiled.any fun re => re.test url) = true
  · by_cases h2 : (rule.excludeRegexCompiled.any fun re => re.test url) = true
    · simp [h1, h2]
    · simp [h1, Bool.eq_false_iff.mpr h2]
  · simp [Bool.eq_false_iff.mpr h1]

theorem evaluateUrl_foldl (compiledRules : List CompiledRule) (url : String)
    (acc : List Match) :
    compiledRules.foldl (evalStep url) acc =
      acc ++ (compiledRules.filter fun r => ruleMatches r url).map toMatch := by
  induction compiledRules generalizing acc with
  | nil => simp
  | cons r rs ih =>
    rw [List.foldl_cons, evalStep_eq, List.filter_cons]
    by_cases h : ruleMatches r url = true
    · simp [h, ih]
    · simp [Bool.eq_false_iff.mpr h, ih]

/-- C3: `evaluateUrl` returns a match for a compiled rule iff at least one of
the rule's include patterns matches the URL and none of its exclude patterns
matches; the matches appear in rule order (the result is the order-preserving
filter of the rule list, not sorted by specificity); and every compiled
pattern matches case-insensitively (its verdict depends only on the
lower-cased input). -/
theorem evaluateUrl_c3 :
    (∀ (compiledRules : List CompiledRule) (url : String),
        evaluateUrl compiledRules url =
          (compiledRules.filter fun r => ruleMatches r url).map toMatch
      ∧ ∀ m : Match, m ∈ evaluateUrl compiledRules url ↔
          ∃ r ∈ compiledRules,
            (∃ re ∈ r.urlRegexCompiled, re.test url = true) ∧
            (∀ re ∈ r.excludeRegexCompiled, re.test url = false) ∧
            m = toMatch r)
    ∧ ∀ (p : String) (re : JsRegex) (e : Option String) (s t : String),
        compileRegex p = { regex := some re, error := e } →
        s.data.map Char.toLower = t.data.map Char.toLower →
        re.test s = re.test t := by
  constructor
  · intro compiledRules url
    have heq := evaluateUrl_foldl compiledRules url []
    rw [List.nil_append] at heq
    refine ⟨heq, fun m => ?_⟩
    rw [show evaluateUrl compiledRules url = _ from heq]
    simp only [List.mem_map, List.mem_filter, ruleMatches, Bool.and_eq_true,
      Bool.not_eq_true', List.any_eq_true, List.any_eq_false]
    constructor
    · rintro ⟨r, ⟨hr, ⟨hinc, hexc⟩⟩, rfl⟩
      exact ⟨r, hr, hinc, fun re hre => Bool.eq_false_iff.mpr (hexc re hre), rfl⟩
    · rintro ⟨r, hr, hinc, hexc, rfl⟩
      exact ⟨r, ⟨hr, hinc, fun re hre => Bool.eq_false_iff.mp (hexc re hre)⟩, rfl⟩
  · intro p re e s t _ hmap
    simp only [JsRegex.test, hmap]

/-- A compiled include pattern used by the C3 witness. -/
def demoRegex : JsRegex := (compileRegex "example\\.com").regex.getD { toks := [] }

/-- A concrete compiled rule used by the C3 witness. -/
def demoRule : CompiledRule :=
  { id := "r1", name := "Example", urlRegexCompiled := [demoRegex],
    excludeRegexCompiled := [],
    actions := { history := Action.delete, cookies := Action.keep,
                 cache := Action.keep, siteData := Action.keep },
    timing := { asap := true, onTabClose := false, onBrowserClose := false,
                periodicMinutes := none },
    safety := { maxDeletesPerMinute := 60, cooldownSeconds := 0 } }

theorem evaluateUrl_c3_witness :
    evaluateUrl [demoRule] "https://EXAMPLE.COM/page" = [toMatch demoRule]
    ∧ demoRegex.test "https://EXAMPLE.COM/page" = demoRegex.test "https://example.com/page" := by
  constructor
  · rw [(evaluateUrl_c3.1 [demoRule] "https://EXAMPLE.COM/page").1]
    rfl
  · exact evaluateUrl_c3.2 "example\\.com" demoRegex none
      "https://EXAMPLE.COM/page" "https://example.com/page" rfl rfl

/-- The `match` object of a persisted rule. -/
structure RuleMatchSpec where
  urlRegex : List String
  excludeRegex : Option (List String)
deriving DecidableEq, Repr

/-- A persisted rule as read by `loadRules` (the `match` field is named
`matchSpec` because `match` is reserved in Lean). -/
structure Rule where
  id : String
  name : String
  enabled : Bool
  matchSpec : RuleMatchSpec
  actions : Actions
  timing : Timing
  safety : Safety
deriving DecidableEq, Repr

/-- The include-pattern compilation loop of `loadRules` (rules-engine.js
lines 29-40): compiles patterns in order and aborts with `none` at the first
pattern that fails to compile (the `valid = false` + `break` path). -/
def compileIncludes : List String → Option (List JsRegex)
  | [] => some []
  | p :: ps =>
    match (compileRegex p).regex with
    | some re => (compileIncludes ps).map (fun rs => re :: rs)
    | none => none

/-- The exclude-pattern loop of `loadRules` (rules-engine.js lines 42-48):
exclude patterns that fail to compile are skipped silently. -/
def compileExcludes (ps : List String) : List JsRegex :=
  ps.filterMap fun p => (compileRegex p).regex

/-- One iteration of the `loadRules` loop (rules-engine.js lines 16-51):
skip a disabled rule, skip a rule whose include set failed to compile, and
otherwise push the compiled rule. -/
def loadStep (compiledRules : List CompiledRule) (rule : Rule) : List CompiledRule :=
  if !rule.enabled then compiledRules
  else
    match compileIncludes rule.matchSpec.urlRegex with
    | none => compiledRules
    | some incl =>
      compiledRules ++
        [{ id := rule.id, name := rule.name, urlRegexCompiled := incl,
           excludeRegexCompiled := compileExcludes (rule.matchSpec.excludeRegex.getD []),
           actions := rule.actions, timing := rule.timing, safety := rule.safety }]

/-- `loadRules()` from rules-engine.js lines 12-55, as a pure function of the
persisted rule list it reads from storage: disabled rules are discarded, a
rule with a non-compiling include pattern is skipped entirely, and the
surviving rules are compiled in order into the new cache. -/
def loadRules (rules : List Rule) : List CompiledRule :=
  rules.foldl loadStep []

/-- Modelled from the claim's wording (the fail-closed/fail-open policy): a
compiled rule is produced exactly for enabled rules all of whose include
patterns compile; exclude patterns that fail to compile are dropped
individually while the rule itself is kept. -/
def compileRuleSpec (rule : Rule) : Option CompiledRule :=
  if !rule.enabled then none
  else if rule.matchSpec.urlRegex.any (fun p => ((compileRegex p).regex).isNone) then none
  else
    some { id := rule.id, name := rule.name,
           urlRegexCompiled := rule.matchSpec.urlRegex.filterMap (fun p => (compileRegex p).regex),
           excludeRegexCompiled :=
             (rule.matchSpec.excludeRegex.getD []).filterMap (fun p => (compileRegex p).regex),
           actions := rule.actions, timing := rule.timing, safety := rule.safety }

theorem compileIncludes_eq (ps : List String) :
    compileIncludes ps =
      if ps.any (fun p => ((compileRegex p).regex).isNone) then none
      else some (ps.filterMap (fun p => (compileRegex p).regex)) := by
  induction ps with
  | nil => simp [compileIncludes]
  | cons p ps ih =>
    rw [compileIncludes, ih]
    cases h : (compileRegex p).regex with
    | none => simp [h, List.any_cons]
    | some re =>
      by_cases hps : (ps.any fun q => ((compileRegex q).regex).isNone) = true
      · simp [h, hps, List.any_cons]
      · simp [h, Bool.eq_false_iff.mpr hps, List.any_cons, List.filterMap_cons]

/-- C5: `loadRules` produces a compiled rule exactly for enabled rules whose
entire include-pattern set compiles (fail-closed per rule on a bad include
pattern), and a bad exclude pattern is dropped individually while the rule is
still compiled with the remaining exclude patterns (fail-open). -/
theorem loadStep_eq (acc : List CompiledRule) (rule : Rule) :
    loadStep acc rule = acc ++ (compileRuleSpec rule).toList := by
  unfold loadStep compileRuleSpec
  rw [compileIncludes_eq]
  by_cases he : rule.enabled = true
  · by_cases hb : (rule.matchSpec.urlRegex.any fun p => ((compileRegex p).regex).isNone) = true
    · simp [he, hb]
    · simp [he, Bool.eq_false_iff.mpr hb, compileExcludes]
  · simp [Bool.eq_false_iff.mpr he]

theorem foldl_loadStep (rules : List Rule) (acc : List CompiledRule) :
    rules.foldl loadStep acc = acc ++ rules.filterMap compileRuleSpec := by
  induction rules generalizing acc with
  | nil => simp
  | cons r rs ih =>
    rw [List.foldl_cons, loadStep_eq, List.filterMap_cons, ih]
    cases h : compileRuleSpec r <;> simp [h]

theorem loadRules_c5 :
    ∀ rules : List Rule, loadRules rules = rules.filterMap compileRuleSpec := by
  intro rules
  rw [loadRules, foldl_loadStep, List.nil_append]

/-- A parsed URL: the components of the host `URL` object this engine reads. -/
structure URLRec where
  protocol : String
  hostname : String
  pathname : String
  search : String
deriving DecidableEq, Repr

/-- Split a character list at the first occurrence of `sep`; `none` when
`sep` does not occur. -/
def splitFirst (sep : Char) : List Char → Option (List Char × List Char)
  | [] => none
  | c :: rest =>
    if c = sep then some ([], rest)
    else (splitFirst sep rest).map (fun p => (c :: p.1, p.2))

/-- Split a character list before the first character in `stops`. -/
def takeUntil (stops : List Char) : List Char → List Char × List Char
  | [] => ([], [])
  | c :: rest =>
    if c ∈ stops then ([], c :: rest)
    else
      let p := takeUntil stops rest
      (c :: p.1, p.2)

/-- Characters allowed after the first character of a URL scheme. -/
def isSchemeChar (c : Char) : Bool := c.isAlphanum || c = '+' || c = '-' || c = '.'

/-- The `search` component read from the rest of a URL after the path: the
query including its leading `?` when non-empty, `""` otherwise, mirroring the
host `URL.search` accessor. -/
def searchOf : List Char → String
  | '?' :: q =>
    let qc := (takeUntil ['#'] q).1
    if qc.isEmpty then "" else String.mk ('?' :: qc)
  | _ => ""

/-- Path and search components from everything after the authority. -/
def parsePathSearch : List Char → String × String
  | '/' :: rest =>
    let p := takeUntil ['?', '#'] ('/' :: rest)
    (String.mk p.1, searchOf p.2)
  | '?' :: rest => ("/", searchOf ('?' :: rest))
  | _ => ("/", "")

/-- Model of the host `new URL(url)` parser (wrapped in try/catch by the
deletion engine's `parseUrl` helper), restricted to the URL shapes this
engine handles: `scheme://host[:port]/path?query#fragment` plus opaque-path
URLs `scheme:rest`.  Scheme and hostname are lower-cased as the host parser
does; userinfo, IPv6 hosts and percent-encoding are outside the modelled
subset.  A string with no valid scheme, or a `//` authority with an empty
host, fails to parse — `none` stands for the thrown TypeError. -/
def parseUrl (url : String) : Option URLRec :=
  match splitFirst ':' url.data with
  | none => none
  | some (schemeCs, rest) =>
    match schemeCs with
    | [] => none
    | c0 :: crest =>
      if !(c0.isAlpha && crest.all isSchemeChar) then none
      else
        let protocol := String.mk (schemeCs.map Char.toLower) ++ ":"
        match rest with
        | '/' :: '/' :: rest2 =>
          let ar := takeUntil ['/', '?', '#'] rest2
          let host := match splitFirst ':' ar.1 with
            | some hp => hp.1
            | none => ar.1
          if host.isEmpty then none
          else
            let ps := parsePathSearch ar.2
            some { protocol := protocol, hostname := String.mk (host.map Char.toLower),
                   pathname := ps.1, search := ps.2 }
        | _ =>
          let p := takeUntil ['?', '#'] rest
          some { protocol := protocol, hostname := "",
                 pathname := String.mk p.1, search := searchOf p.2 }

/-- Model of JS `String.prototype.startsWith`. -/
def strStartsWith (s p : String) : Bool := p.data.isPrefixOf s.data

/-- Model of JS `String.prototype.slice(n)` for a nonnegative index. -/
def strDrop (s : String) (n : Nat) : String := String.mk (s.data.drop n)

/-- `expandHostnames(hostname)` from the deletion engine: the hostname plus
its www/non-www counterpart, base hostname first. -/
def expandHostnames (hostname : String) : List String :=
  if strStartsWith hostname "www." then [hostname, strDrop hostname 4]
  else [hostname, "www." ++ hostname]

/-- `extractHostname(url)`: the parsed hostname, or `none` (JS `null`) when
the URL does not parse. -/
def extractHostname (url : String) : Option String :=
  (parseUrl url).map (fun u => u.hostname)

/-- `normalizePathname(pathname)`: strip the trailing run of slashes, mapping
an empty or root path to `/` (the `replace(/\/+$/, '') || '/'` expression). -/
def normalizePathname (pathname : String) : String :=
  if pathname = "" || pathname = "/" then "/"
  else
    let stripped := String.mk (pathname.data.reverse.dropWhile (fun c => c = '/')).reverse
    if stripped = "" then "/" else stripped

/-- `isHttpLikeProtocol(protocol)`. -/
def isHttpLikeProtocol (protocol : String) : Bool :=
  protocol = "http:" || protocol = "https:"

/-- `hasCompatibleHistoryOrigin(source, candidate)` from part_002 lines
42-53: candidate hostname must lie in the www-expansion of the source
hostname, and the protocols must both be http-like, or identical when the
source protocol is not http-like. -/
def hasCompatibleHistoryOrigin (source candidate : URLRec) : Bool :=
  if !((expandHostnames source.hostname).contains candidate.hostname) then false
  else if isHttpLikeProtocol source.protocol then isHttpLikeProtocol candidate.protocol
  else candidate.protocol = source.protocol

/-- `isSameOrDescendantPath(basePathname, candidatePathname)` from part_002
lines 55-63. -/
def isSameOrDescendantPath (basePathname candidatePathname : String) : Bool :=
  let base := normalizePathname basePathname
  let candidate := normalizePathname candidatePathname
  if base = "/" then true
  else if candidate = base then true
  else strStartsWith candidate (base ++ "/")

/-- `areEquivalentHistoryUrlObjects(source, candidate)` from part_002 lines
65-75. -/
def areEquivalentHistoryUrlObjects (source candidate : URLRec) : Bool :=
  if !hasCompatibleHistoryOrigin source candidate then false
  else if normalizePathname candidate.pathname ≠ normalizePathname source.pathname then false
  else candidate.search == source.search

/-- `areEquivalentHistoryUrls(sourceUrl, candidateUrl)` from part_002 lines
77-85: parse both URLs, returning false when either fails to parse. -/
def areEquivalentHistoryUrls (sourceUrl candidateUrl : String) : Bool :=
  match parseUrl sourceUrl, parseUrl candidateUrl with
  | some source, some candidate => areEquivalentHistoryUrlObjects source candidate
  | _, _ => false

/-- `isHistoryUrlInSubtreeObjects(source, candidate)` from part_002 lines
87-93. -/
def isHistoryUrlInSubtreeObjects (source candidate : URLRec) : Bool :=
  if !hasCompatibleHistoryOrigin source candidate then false
  else isSameOrDescendantPath source.pathname candidate.pathname

/-- `isHistoryUrlInSubtree(sourceUrl, candidateUrl)` from part_002 lines
95-103. -/
def isHistoryUrlInSubtree (sourceUrl candidateUrl : String) : Bool :=
  match parseUrl sourceUrl, parseUrl candidateUrl with
  | some source, some candidate => isHistoryUrlInSubtreeObjects source candidate
  | _, _ => false

theorem hasCompatibleHistoryOrigin_iff (s c : URLRec) :
    hasCompatibleHistoryOrigin s c = true ↔
      c.hostname ∈ expandHostnames s.hostname ∧
        ((isHttpLikeProtocol s.protocol = true ∧ isHttpLikeProtocol c.protocol = true) ∨
          c.protocol = s.protocol) := by
  unfold hasCompatibleHistoryOrigin
  split
  · rename_i hnc
    have hmem : c.hostname ∉ expandHostnames s.hostname := by
      intro hmem
      rw [show (expandHostnames s.hostname).contains c.hostname = true from
        List.elem_iff.mpr hmem] at hnc
      simp at hnc
    simp [hmem]
  · rename_i hnc
    have hc : (expandHostnames s.hostname).contains c.hostname = true := by
      revert hnc
      cases h : (expandHostnames s.hostname).contains c.hostname <;> simp [h]
    have hmem : c.hostname ∈ expandHostnames s.hostname := List.elem_iff.mp hc
    split
    · rename_i hh
      constructor
      · intro h
        exact ⟨hmem, Or.inl ⟨hh, h⟩⟩
      · rintro ⟨-, ⟨-, h⟩ | h⟩
        · exact h
        · rw [h]; exact hh
    · rename_i hh
      rw [decide_eq_true_eq]
      constructor
      · intro h
        exact ⟨hmem, Or.inr h⟩
      · rintro ⟨-, ⟨hs, -⟩ | h⟩
        · exact absurd hs hh
        · exact h

theorem areEquivalentHistoryUrlObjects_iff (s c : URLRec) :
    areEquivalentHistoryUrlObjects s c = true ↔
      hasCompatibleHistoryOrigin s c = true ∧
        normalizePathname c.pathname = normalizePathname s.pathname ∧
        c.search = s.search := by
  unfold areEquivalentHistoryUrlObjects
  by_cases ho : hasCompatibleHistoryOrigin s c = true
  · by_cases hp : normalizePathname c.pathname = normalizePathname s.pathname
    · simp [ho, hp]
    · simp [ho, hp]
  · simp [Bool.eq_false_iff.mpr ho, ho]

/-- C4: for parseable URLs, `areEquivalentHistoryUrls(a, b)` holds iff b's
hostname is in the www-expansion of a's hostname, the schemes are either both
http/https or identical, the paths are identical after stripping trailing
slashes, and the query strings are identical; in particular
`http://example.com/path?x=1` and `https://www.example.com/path/?x=1` are
equivalent, and changing the path makes it false. -/
theorem areEquivalentHistoryUrls_c4 :
    (∀ (a b : String) (pa pb : URLRec), parseUrl a = some pa → parseUrl b = some pb →
      (areEquivalentHistoryUrls a b = true ↔
        pb.hostname ∈ expandHostnames pa.hostname ∧
          ((isHttpLikeProtocol pa.protocol = true ∧ isHttpLikeProtocol pb.protocol = true) ∨
            pb.protocol = pa.protocol) ∧
          normalizePathname pb.pathname = normalizePathname pa.pathname ∧
          pb.search = pa.search))
    ∧ areEquivalentHistoryUrls "http://example.com/path?x=1"
        "https://www.example.com/path/?x=1" = true
    ∧ areEquivalentHistoryUrls "http://example.com/path?x=1"
        "https://www.example.com/other/?x=1" = false := by
  refine ⟨?_, by decide, by decide⟩
  intro a b pa pb hpa hpb
  unfold areEquivalentHistoryUrls
  rw [hpa, hpb]
  rw [areEquivalentHistoryUrlObjects_iff, hasCompatibleHistoryOrigin_iff]
  tauto

theorem areEquivalentHistoryUrls_c4_witness :
    areEquivalentHistoryUrls "http://example.com/path?x=1"
        "https://www.example.com/path/?x=1" = true
    ∧ ("www.example.com" : String) ∈ expandHostnames "example.com" := by
  constructor
  · exact (areEquivalentHistoryUrls_c4.1 "http://example.com/path?x=1"
      "https://www.example.com/path/?x=1"
      { protocol := "http:", hostname := "example.com", pathname := "/path", search := "?x=1" }
      { protocol := "https:", hostname := "www.example.com", pathname := "/path/",
        search := "?x=1" } (by decide) (by decide)).mpr
      ⟨by decide, Or.inl ⟨by decide, by decide⟩, by decide, rfl⟩
  · decide

/-- C9: `areEquivalentHistoryUrls` and `isHistoryUrlInSubtree` are total at
the public interface: when either argument fails to parse as a URL they
return false (the embedding is a total function, so they cannot throw). -/
theorem historyUrl_total_c9 :
    ∀ a b : String, (parseUrl a = none ∨ parseUrl b = none) →
      areEquivalentHistoryUrls a b = false ∧ isHistoryUrlInSubtree a b = false := by
  intro a b h
  unfold areEquivalentHistoryUrls isHistoryUrlInSubtree
  rcases h with h | h
  · rw [h]
    exact ⟨rfl, rfl⟩
  · rw [h]
    cases parseUrl a <;> exact ⟨rfl, rfl⟩

theorem historyUrl_total_c9_witness :
    areEquivalentHistoryUrls "not a url" "https://example.com/" = false
    ∧ isHistoryUrlInSubtree "not a url" "https://example.com/" = false :=
  historyUrl_total_c9 "not a url" "https://example.com/" (Or.inl rfl)

/-- Projection of a sub-operation result object onto the `success` and
`partial` fields that `isOperationSuccessful` reads (the JS results carry
further fields — deleted URLs, error messages, skip markers — that the
overall-success computation never consults). -/
structure OpResult where
  success : Bool
  partialFlag : Bool
deriving DecidableEq, Repr

/-- The result of `deleteHistory` (part_002 lines 140-171) as a function of
the per-URL outcomes of its independent `history.deleteUrl` calls (`true`
for a deleted URL, `false` for a failed one): total failure when nothing was
deleted and something failed, partial success (`success:true, partial:true`)
when something was deleted and something failed, clean success otherwise. -/
def deleteHistoryResult (outcomes : List Bool) : OpResult :=
  if outcomes.count true = 0 ∧ 0 < outcomes.count false then
    { success := false, partialFlag := false }
  else if 0 < outcomes.count false then
    { success := true, partialFlag := true }
  else
    { success := true, partialFlag := false }

/-- The result of `deleteSiteData` (part_002 lines 173-200) as a function of
the requested data types and of whether the host `browsingData.remove` call
succeeds: an empty data-type set short-circuits to a skipped success. -/
def deleteSiteDataResult (dataTypes : Actions) (removeOk : Bool) : OpResult :=
  if dataTypes.cookies ≠ Action.delete ∧ dataTypes.siteData ≠ Action.delete then
    { success := true, partialFlag := false }
  else
    { success := removeOk, partialFlag := false }

/-- The result of `clearGlobalCache` (part_002 lines 202-215): a call inside
the rate-limit window is a skipped success, otherwise success mirrors the
host cache-clear call. -/
def clearGlobalCacheResult (rateLimited removeOk : Bool) : OpResult :=
  if rateLimited then { success := true, partialFlag := false }
  else { success := removeOk, partialFlag := false }

/-- `isOperationSuccessful(result)` from part_002 lines 217-220: a skipped
(null) sub-operation counts as success; an invoked one succeeded only when
its `success` flag is true and its `partial` flag is not. -/
def isOperationSuccessful : Option OpResult → Bool
  | none => true
  | some r => r.success && !r.partialFlag

/-- Environment giving the outcomes of the host capabilities one
`executeActions` run consults. -/
structure ExecEnv where
  histOutcomes : List Bool
  siteRemoveOk : Bool
  cacheRateLimited : Bool
  cacheRemoveOk : Bool
deriving DecidableEq, Repr

/-- The `results` object returned by `executeActions`. -/
structure ExecResults where
  history : Option OpResult
  siteData : Option OpResult
  cache : Option OpResult
  success : Bool
deriving DecidableEq, Repr

/-- The history block of `executeActions` (part_002 lines 231-237): invoked
only when the merged plan deletes history. -/
def execHistoryPart (mergedActions : Actions) (env : ExecEnv) : Option OpResult :=
  if mergedActions.history = Action.delete then some (deleteHistoryResult env.histOutcomes)
  else none

/-- The site-data block of `executeActions` (part_002 lines 239-247):
invoked when the merged plan deletes cookies or site data, failing up front
when the URL's hostname cannot be parsed. -/
def execSitePart (url : String) (mergedActions : Actions) (env : ExecEnv) : Option OpResult :=
  if mergedActions.cookies = Action.delete ∨ mergedActions.siteData = Action.delete then
    some (match extractHostname url with
      | none => { success := false, partialFlag := false }
      | some _ => deleteSiteDataResult mergedActions env.siteRemoveOk)
  else none

/-- The cache block of `executeActions` (part_002 lines 249-252). -/
def execCachePart (mergedActions : Actions) (env : ExecEnv) : Option OpResult :=
  if mergedActions.cache = Action.delete then
    some (clearGlobalCacheResult env.cacheRateLimited env.cacheRemoveOk)
  else none

/-- `executeActions(url, mergedActions, options)` from part_002 lines
222-259: the three conditional sub-operations, and an overall `success` flag
that requires every invoked sub-operation to pass `isOperationSuccessful`. -/
def executeActions (url : String) (mergedActions : Actions) (env : ExecEnv) : ExecResults :=
  { history := execHistoryPart mergedActions env
    siteData := execSitePart url mergedActions env
    cache := execCachePart mergedActions env
    success := isOperationSuccessful (execHistoryPart mergedActions env) &&
      isOperationSuccessful (execSitePart url mergedActions env) &&
      isOperationSuccessful (execCachePart mergedActions env) }

/-- An invoked sub-operation succeeded unconditionally (the claim's wording):
whenever its result is present, the result's `success` flag is true and its
`partial` flag is not set. -/
def opUnconditional (o : Option OpResult) : Prop :=
  ∀ r, o = some r → r.success = true ∧ r.partialFlag = false

theorem isOperationSuccessful_iff (o : Option OpResult) :
    isOperationSuccessful o = true ↔ opUnconditional o := by
  cases o with
  | none => simp [isOperationSuccessful, opUnconditional]
  | some r => simp [isOperationSuccessful, opUnconditional]

/-- C1: the overall `success` flag of `executeActions` is true iff every
invoked sub-operation (history, site data, cache) succeeded unconditionally;
in particular when the history deletion deleted some matched URLs and failed
on at least one other, its sub-result is `success:true, partial:true` and
the overall result is nevertheless a failure. -/
theorem executeActions_success_c1 :
    ∀ (url : String) (mergedActions : Actions) (env : ExecEnv),
      ((executeActions url mergedActions env).success = true ↔
        opUnconditional (executeActions url mergedActions env).history ∧
        opUnconditional (executeActions url mergedActions env).siteData ∧
        opUnconditional (executeActions url mergedActions env).cache)
      ∧ (mergedActions.history = Action.delete →
          true ∈ env.histOutcomes → false ∈ env.histOutcomes →
          (executeActions url mergedActions env).history =
            some { success := true, partialFlag := true } ∧
          (executeActions url mergedActions env).success = false) := by
  intro url a env
  constructor
  · show (isOperationSuccessful (execHistoryPart a env) &&
        isOperationSuccessful (execSitePart url a env) &&
        isOperationSuccessful (execCachePart a env)) = true ↔ _
    rw [Bool.and_eq_true, Bool.and_eq_true, isOperationSuccessful_iff,
      isOperationSuccessful_iff, isOperationSuccessful_iff]
    exact and_assoc
  · intro hh ht hf
    have hct : env.histOutcomes.count true ≠ 0 := by
      intro h
      exact (List.count_eq_zero.mp h) ht
    have hcf : 0 < env.histOutcomes.count false :=
      Nat.pos_of_ne_zero (fun h => (List.count_eq_zero.mp h) hf)
    have hpart : deleteHistoryResult env.histOutcomes =
        { success := true, partialFlag := true } := by
      unfold deleteHistoryResult
      rw [if_neg (fun hc => hct hc.1), if_pos hcf]
    have hhist : execHistoryPart a env = some { success := true, partialFlag := true } := by
      rw [execHistoryPart, if_pos hh, hpart]
    refine ⟨hhist, ?_⟩
    show (isOperationSuccessful (execHistoryPart a env) && _ && _) = false
    rw [hhist]
    rfl

theorem executeActions_success_c1_witness :
    (executeActions "https://example.com/a"
      { history := Action.delete, cookies := Action.keep, cache := Action.keep,
        siteData := Action.keep }
      { histOutcomes := [true, false], siteRemoveOk := true, cacheRateLimited := false,
        cacheRemoveOk := true }).success = false :=
  ((executeActions_success_c1 "https://example.com/a"
      { history := Action.delete, cookies := Action.keep, cache := Action.keep,
        siteData := Action.keep }
      { histOutcomes := [true, false], siteRemoveOk := true, cacheRateLimited := false,
        cacheRemoveOk := true }).2 rfl (by decide) (by decide)).2

/-- `Constants.BUFFER_MAX_ENTRIES`. -/
def BUFFER_MAX_ENTRIES : Nat := 5000

/-- `Constants.BUFFER_MAX_ATTEMPTS`. -/
def BUFFER_MAX_ATTEMPTS : Nat := 10

/-- `Constants.DEDUP_WINDOW_MS`. -/
def DEDUP_WINDOW_MS : Nat := 2000

/-- `Constants.ACTION_LOG_MAX_ENTRIES`. -/
def ACTION_LOG_MAX_ENTRIES : Nat := 200

/-- `Constants.DEFAULT_MAX_DELETES_PER_MINUTE`. -/
def DEFAULT_MAX_DELETES_PER_MINUTE : Nat := 60

/-- Status of a retry-buffer entry. -/
inductive BufStatus where
  | pending
  | failed
deriving DecidableEq, Repr

/-- A retry-buffer entry (main.js lines 345-355). -/
structure BufferEntry where
  id : String
  url : String
  hostname : Option String
  actions : Actions
  ruleIdMatched : Option String
  firstSeenAt : Nat
  lastAttemptAt : Option Nat
  attempts : Nat
  status : BufStatus
deriving DecidableEq, Repr

/-- The argument object passed to `Buffer.enqueue`. -/
structure EnqueueReq where
  url : String
  hostname : Option String
  actions : Actions
  ruleIdMatched : Option String
deriving DecidableEq, Repr

/-- The dedup predicate of `Buffer.enqueue` (main.js line 337): same URL and
status `pending`. -/
def isPendingFor (url : String) (e : BufferEntry) : Bool :=
  e.url == url && e.status == BufStatus.pending

/-- The fresh entry appended by `Buffer.enqueue` (main.js lines 345-355). -/
def newBufferEntry (req : EnqueueReq) (now : Nat) (newId : String) : BufferEntry :=
  { id := newId, url := req.url,
    hostname := match req.hostname with
      | some h => some h
      | none => extractHostname req.url
    actions := req.actions, ruleIdMatched := req.ruleIdMatched,
    firstSeenAt := now, lastAttemptAt := none, attempts := 0,
    status := BufStatus.pending }

/-- The in-place update applied to an existing pending entry by
`Buffer.enqueue` (main.js lines 339-340). -/
def refreshPending (req : EnqueueReq) (now : Nat) (e : BufferEntry) : BufferEntry :=
  { e with lastAttemptAt := some now, actions := req.actions }

/-- The `findIndex` + in-place-update path of `Buffer.enqueue` (main.js
lines 337-343): update the first pending entry with the same URL, or `none`
when there is no such entry. -/
def enqueuePending (req : EnqueueReq) (now : Nat) : List BufferEntry → Option (List BufferEntry)
  | [] => none
  | e :: es =>
    if isPendingFor req.url e then some (refreshPending req now e :: es)
    else (enqueuePending req now es).map (fun l => e :: l)

/-- The `sort((a, b) => a.firstSeenAt - b.firstSeenAt)` call of the eviction
path (main.js line 361). -/
def sortByFirstSeen (buffer : List BufferEntry) : List BufferEntry :=
  buffer.mergeSort (fun a b => a.firstSeenAt ≤ b.firstSeenAt)

/-- `Buffer.enqueue(entry)` from main.js lines 333-366: update an existing
pending entry for the same URL in place, else append a fresh pending entry
and, when the buffer then exceeds capacity, evict the oldest entries by
`firstSeenAt` until within capacity. -/
def enqueue (buffer : List BufferEntry) (req : EnqueueReq) (now : Nat) (newId : String) :
    List BufferEntry :=
  match enqueuePending req now buffer with
  | some updated => updated
  | none =>
    if BUFFER_MAX_ENTRIES < (buffer ++ [newBufferEntry req now newId]).length then
      (sortByFirstSeen (buffer ++ [newBufferEntry req now newId])).drop
        ((buffer ++ [newBufferEntry req now newId]).length - BUFFER_MAX_ENTRIES)
    else buffer ++ [newBufferEntry req now newId]

/-- Number of pending entries for one URL. -/
def countPending (buffer : List BufferEntry) (url : String) : Nat :=
  (buffer.filter (isPendingFor url)).length

theorem isPendingFor_refreshPending (u : String) (req : EnqueueReq) (now : Nat)
    (e : BufferEntry) : isPendingFor u (refreshPending req now e) = isPendingFor u e := rfl

theorem enqueuePending_none_iff (req : EnqueueReq) (now : Nat) (l : List BufferEntry) :
    enqueuePending req now l = none ↔ ∀ e ∈ l, isPendingFor req.url e = false := by
  induction l with
  | nil => simp [enqueuePending]
  | cons e es ih =>
    rw [enqueuePending]
    by_cases he : isPendingFor req.url e = true
    · simp [he]
    · simp [Bool.eq_false_iff.mpr he, ih, Option.map_eq_none', he]

theorem enqueuePending_length (req : EnqueueReq) (now : Nat) (l l' : List BufferEntry)
    (h : enqueuePending req now l = some l') : l'.length = l.length := by
  induction l generalizing l' with
  | nil => simp [enqueuePending] at h
  | cons e es ih =>
    rw [enqueuePending] at h
    split at h
    · cases h
      simp
    · rw [Option.map_eq_some'] at h
      obtain ⟨l'', hl'', rfl⟩ := h
      simp [ih l'' hl'']

theorem enqueuePending_mem (req : EnqueueReq) (now : Nat) (l l' : List BufferEntry)
    (h : enqueuePending req now l = some l') :
    ∃ e ∈ l, isPendingFor req.url e = true ∧ refreshPending req now e ∈ l' := by
  induction l generalizing l' with
  | nil => simp [enqueuePending] at h
  | cons e es ih =>
    rw [enqueuePending] at h
    split at h
    · rename_i he
      cases h
      exact ⟨e, List.mem_cons_self e es, he, List.mem_cons_self _ _⟩
    · rw [Option.map_eq_some'] at h
      obtain ⟨l'', hl'', rfl⟩ := h
      obtain ⟨x, hx, hpx, hmem⟩ := ih l'' hl''
      exact ⟨x, List.mem_cons_of_mem e hx, hpx, List.mem_cons_of_mem e hmem⟩

theorem enqueuePending_countPending (req : EnqueueReq) (now : Nat) (l l' : List BufferEntry)
    (h : enqueuePending req now l = some l') (u : String) :
    countPending l' u = countPending l u := by
  induction l generalizing l' with
  | nil => simp [enqueuePending] at h
  | cons e es ih =>
    rw [enqueuePending] at h
    split at h
    · cases h
      simp only [countPending, List.filter_cons, isPendingFor_refreshPending]
      split <;> simp
    · rw [Option.map_eq_some'] at h
      obtain ⟨l'', hl'', rfl⟩ := h
      simp only [countPending, List.filter_cons]
      have := ih l'' hl''
      split <;> simpa [countPending] using this

theorem countPending_perm {l l' : List BufferEntry} (h : l.Perm l') (u : String) :
    countPending l u = countPending l' u := by
  unfold countPending
  exact (h.filter (isPendingFor u)).length_eq

theorem countPending_sublist {l l' : List BufferEntry} (h : l.Sublist l') (u : String) :
    countPending l u ≤ countPending l' u :=
  (h.filter (isPendingFor u)).length_le

/-- C6: enqueueing preserves the at-most-one-pending-entry-per-URL invariant,
and enqueueing a URL that already has a pending entry updates that entry's
`actions` and `lastAttemptAt` in place, leaving the buffer length unchanged
instead of appending a new entry. -/
theorem enqueue_c6 :
    ∀ (buffer : List BufferEntry) (req : EnqueueReq) (now : Nat) (newId : String),
      (∀ u, countPending buffer u ≤ 1) →
      (∀ u, countPending (enqueue buffer req now newId) u ≤ 1)
      ∧ ((∃ e ∈ buffer, isPendingFor req.url e = true) →
          (enqueue buffer req now newId).length = buffer.length
          ∧ ∃ e ∈ buffer, isPendingFor req.url e = true ∧
              refreshPending req now e ∈ enqueue buffer req now newId
              ∧ (refreshPending req now e).lastAttemptAt = some now
              ∧ (refreshPending req now e).actions = req.actions) := by
  intro buffer req now newId hinv
  unfold enqueue
  cases hp : enqueuePending req now buffer with
  | some updated =>
    refine ⟨fun u => ?_, fun _ => ?_⟩
    · rw [enqueuePending_countPending req now buffer updated hp u]
      exact hinv u
    · obtain ⟨e, he, hpe, hmem⟩ := enqueuePending_mem req now buffer updated hp
      exact ⟨enqueuePending_length req now buffer updated hp, e, he, hpe, hmem, rfl, rfl⟩
  | none =>
    have hnone : ∀ e ∈ buffer, isPendingFor req.url e = false :=
      (enqueuePending_none_iff req now buffer).mp hp
    have happ : ∀ u, countPending (buffer ++ [newBufferEntry req now newId]) u ≤ 1 := by
      intro u
      rw [countPending, List.filter_append, List.length_append]
      by_cases hu : u = req.url
      · have hb : buffer.filter (isPendingFor u) = [] :=
          List.filter_eq_nil_iff.mpr (fun e he => by rw [hu]; simp [hnone e he])
        rw [hb]
        have hnew : isPendingFor u (newBufferEntry req now newId) = true := by
          rw [hu]
          simp [isPendingFor, newBufferEntry]
        simp [hnew]
      · have hnew : isPendingFor u (newBufferEntry req now newId) = false := by
          simp only [isPendingFor, newBufferEntry, Bool.and_eq_false_iff]
          left
          simp only [beq_eq_false_iff_ne, ne_eq]
          exact fun h => hu h.symm
        simp only [List.filter_cons, hnew, Bool.false_eq_true, if_false, List.filter_nil,
          List.length_nil, Nat.add_zero]
        simpa [countPending] using hinv u
    constructor
    · intro u
      by_cases hc : BUFFER_MAX_ENTRIES < (buffer ++ [newBufferEntry req now newId]).length
      · rw [if_pos hc]
        calc countPending ((sortByFirstSeen (buffer ++ [newBufferEntry req now newId])).drop
              ((buffer ++ [newBufferEntry req now newId]).length - BUFFER_MAX_ENTRIES)) u
            ≤ countPending (sortByFirstSeen (buffer ++ [newBufferEntry req now newId])) u :=
              countPending_sublist (List.drop_sublist _ _) u
          _ = countPending (buffer ++ [newBufferEntry req now newId]) u :=
              countPending_perm (List.mergeSort_perm _ _) u
          _ ≤ 1 := happ u
      · rw [if_neg hc]
        exact happ u
    · intro hex
      obtain ⟨e, he, hpe⟩ := hex
      rw [hnone e he] at hpe
      cases hpe

/-- Buffer with a single pending entry, used by the C6 witness. -/
def c6Entry : BufferEntry :=
  { id := "b1", url := "https://example.com/", hostname := some "example.com",
    actions := mergeInit, ruleIdMatched := none, firstSeenAt := 3, lastAttemptAt := none,
    attempts := 0, status := BufStatus.pending }

/-- The enqueue request used by the C6 witness. -/
def c6Req : EnqueueReq :=
  { url := "https://example.com/", hostname := some "example.com",
    actions := mergeInit, ruleIdMatched := none }

theorem enqueue_c6_witness :
    (∀ u, countPending [c6Entry] u ≤ 1)
    ∧ (enqueue [c6Entry] c6Req 7 "b2").length = [c6Entry].length := by
  have hinv : ∀ u, countPending [c6Entry] u ≤ 1 := by
    intro u
    rw [countPending, List.filter_cons]
    split <;> simp
  exact ⟨hinv, ((enqueue_c6 [c6Entry] c6Req 7 "b2" hinv).2
    ⟨c6Entry, List.mem_cons_self c6Entry [], by decide⟩).1⟩

/-- The mutation `Buffer.markFailed` applies to the entry it finds (main.js
lines 391-396): increment `attempts`, stamp `lastAttemptAt`, and flip the
status to `failed` when the incremented count reaches the ceiling. -/
def markFailedUpdate (now : Nat) (e : BufferEntry) : BufferEntry :=
  if BUFFER_MAX_ATTEMPTS ≤ e.attempts + 1 then
    { e with
      attempts := e.attempts + 1
      lastAttemptAt := some now
      status := BufStatus.failed }
  else
    { e with attempts := e.attempts + 1, lastAttemptAt := some now }

/-- `Buffer.markFailed(entryId)` from main.js lines 388-399: mutate the first
entry with the given id in place; a missing id leaves the buffer unchanged. -/
def markFailed : List BufferEntry → String → Nat → List BufferEntry
  | [], _, _ => []
  | e :: es, entryId, now =>
    if e.id == entryId then markFailedUpdate now e :: es
    else e :: markFailed es entryId now

/-- The readiness predicate of `Buffer.dequeueReady` (main.js lines 372-376):
pending, below the attempt ceiling, and never attempted or last attempted
more than the 5-second retry spacing ago. -/
def isReady (now : Nat) (e : BufferEntry) : Bool :=
  e.status == BufStatus.pending &&
  e.attempts < BUFFER_MAX_ATTEMPTS &&
  (match e.lastAttemptAt with
   | none => true
   | some t => decide (5000 < now - t))

/-- `Buffer.dequeueReady()` from main.js lines 368-377, over the buffer it
reads and the current time. -/
def dequeueReady (buffer : List BufferEntry) (now : Nat) : List BufferEntry :=
  buffer.filter (isReady now)

theorem markFailed_length (buffer : List BufferEntry) (entryId : String) (now : Nat) :
    (markFailed buffer entryId now).length = buffer.length := by
  induction buffer with
  | nil => rfl
  | cons e es ih =>
    rw [markFailed]
    split <;> simp [ih]

/-- C7: when `markFailed` raises an entry's `attempts` to the configured
ceiling, it stamps `lastAttemptAt`, flips the status to `failed`, and retains
the entry in a buffer of unchanged length; and `dequeueReady` never returns
an entry that is `failed` or whose `attempts` have reached the ceiling. -/
theorem markFailed_c7 :
    (∀ (buffer : List BufferEntry) (entryId : String) (now : Nat) (e : BufferEntry),
        buffer.find? (fun x => x.id == entryId) = some e →
        BUFFER_MAX_ATTEMPTS ≤ e.attempts + 1 →
        (markFailed buffer entryId now).length = buffer.length
        ∧ { e with
            attempts := e.attempts + 1
            lastAttemptAt := some now
            status := BufStatus.failed } ∈ markFailed buffer entryId now)
    ∧ (∀ (buffer : List BufferEntry) (now : Nat) (x : BufferEntry),
        x ∈ dequeueReady buffer now →
          x.status = BufStatus.pending ∧ x.attempts < BUFFER_MAX_ATTEMPTS)
    ∧ (∀ (buffer : List BufferEntry) (now : Nat) (x : BufferEntry),
        x.status = BufStatus.failed ∨ BUFFER_MAX_ATTEMPTS ≤ x.attempts →
          x ∉ dequeueReady buffer now) := by
  refine ⟨?_, ?_, ?_⟩
  · intro buffer entryId now e hfind hceil
    refine ⟨markFailed_length buffer entryId now, ?_⟩
    induction buffer with
    | nil => simp [List.find?] at hfind
    | cons b bs ih =>
      rw [List.find?] at hfind
      rw [markFailed]
      split
      · rename_i hid
        rw [hid] at hfind
        injection hfind with hbe
        rw [hbe, markFailedUpdate, if_pos (hbe ▸ hceil)]
        exact List.mem_cons_self _ _
      · rename_i hid
        rw [Bool.eq_false_iff.mpr hid] at hfind
        exact List.mem_cons_of_mem b (ih hfind)
  · intro buffer now x hx
    have hr : isReady now x = true := (List.mem_filter.mp hx).2
    rw [isReady, Bool.and_eq_true, Bool.and_eq_true] at hr
    exact ⟨by simpa using hr.1.1, by simpa using hr.1.2⟩
  · intro buffer now x hbad hx
    have hr : isReady now x = true := (List.mem_filter.mp hx).2
    rw [isReady, Bool.and_eq_true, Bool.and_eq_true] at hr
    rcases hbad with hbad | hbad
    · have : x.status = BufStatus.pending := by simpa using hr.1.1
      rw [hbad] at this
      cases this
    · have : x.attempts < BUFFER_MAX_ATTEMPTS := by simpa using hr.1.2
      omega

/-- Entry at the attempt ceiling minus one, used by the C7 witness. -/
def c7Entry : BufferEntry :=
  { id := "c1", url := "https://example.org/", hostname := some "example.org",
    actions := mergeInit, ruleIdMatched := none, firstSeenAt := 1,
    lastAttemptAt := some 2, attempts := 9, status := BufStatus.pending }

theorem markFailed_c7_witness :
    (markFailed [c7Entry] "c1" 50).length = [c7Entry].length
    ∧ { c7Entry with
        attempts := 10
        lastAttemptAt := some 50
        status := BufStatus.failed } ∈ markFailed [c7Entry] "c1" 50 := by
  have h := (markFailed_c7.1 [c7Entry] "c1" 50 c7Entry (by decide) (by decide))
  exact ⟨h.1, h.2⟩

/-- One iteration of the `mergeTiming` loop (rules-engine.js lines 108-117):
boolean triggers are OR-ed, `periodicMinutes` is the minimum of the non-null
values. -/
def mergeTimingStep (acc : Timing) (m : Match) : Timing :=
  { asap := if m.timing.asap then true else acc.asap
    onTabClose := if m.timing.onTabClose then true else acc.onTabClose
    onBrowserClose := if m.timing.onBrowserClose then true else acc.onBrowserClose
    periodicMinutes :=
      match m.timing.periodicMinutes with
      | none => acc.periodicMinutes
      | some p =>
        match acc.periodicMinutes with
        | none => some p
        | some q => if p < q then some p else some q }

/-- `mergeTiming(matchResults)` from rules-engine.js lines 100-120. -/
def mergeTiming (matchResults : List Match) : Timing :=
  matchResults.foldl mergeTimingStep
    { asap := false, onTabClose := false, onBrowserClose := false, periodicMinutes := none }

/-- The trigger kind passed to `processDeletion`: the three values used at
its call sites. -/
inductive Trigger where
  | asap
  | tabClose
  | browserClose
deriving DecidableEq, Repr

/-- The three trigger gates of `processDeletion` (main.js lines 87-89): the
run proceeds only when the merged timing enables the specific trigger. -/
def triggerEnabled (trigger : Trigger) (mergedTiming : Timing) : Bool :=
  match trigger with
  | Trigger.asap => mergedTiming.asap
  | Trigger.tabClose => mergedTiming.onTabClose
  | Trigger.browserClose => mergedTiming.onBrowserClose

/-- An audit-log entry, projected onto the fields `logAction` writes (the
`result` object is recorded via its overall `success` flag). -/
structure LogEntry where
  timestamp : Nat
  url : String
  ruleNames : List String
  actions : Actions
  resultSuccess : Bool
deriving DecidableEq, Repr

/-- `logAction(entry)` from main.js lines 56-72: prepend and trim to the
maximum log length. -/
def logAction (log : List LogEntry) (entry : LogEntry) : List LogEntry :=
  (entry :: log).take ACTION_LOG_MAX_ENTRIES

/-- Lookup in the `recentlyProcessed` map (insertion-ordered association
list). -/
def mapGet (m : List (String × Nat)) (k : String) : Option Nat :=
  (m.find? (fun kv => kv.1 == k)).map (fun kv => kv.2)

/-- `Map.set`: replace the value of an existing key, else append. -/
def mapSet : List (String × Nat) → String → Nat → List (String × Nat)
  | [], k, v => [(k, v)]
  | kv :: rest, k, v => if kv.1 == k then (k, v) :: rest else kv :: mapSet rest k v

/-- `wasRecentlyProcessed(url)` from main.js lines 36-42 (a stored timestamp
of 0 is falsy in JS and treated as absent). -/
def wasRecentlyProcessed (recent : List (String × Nat)) (url : String) (now : Nat) : Bool :=
  match mapGet recent url with
  | some ts => ts != 0 && now - ts < DEDUP_WINDOW_MS
  | none => false

/-- `markProcessed(url)` from main.js lines 44-53: record the timestamp and,
past the size threshold, prune entries older than the dedup window. -/
def markProcessed (recent : List (String × Nat)) (url : String) (now : Nat) :
    List (String × Nat) :=
  if 500 < (mapSet recent url now).length then
    (mapSet recent url now).filter (fun kv => !(kv.2 < now - DEDUP_WINDOW_MS))
  else mapSet recent url now

/-- The mutable state `processDeletion` reads and writes: the pause flag and
dedup map, the compiled-rule cache, the token bucket, and the persisted
buffer and audit log. -/
structure PipelineState where
  paused : Bool
  recentlyProcessed : List (String × Nat)
  compiledRules : List CompiledRule
  tokens : Nat
  lastRefill : Nat
  buffer : List BufferEntry
  actionLog : List LogEntry
deriving DecidableEq, Repr

/-- The token count after the refill step of `rateLimiter.acquire` (main.js
lines 20-24); a zero `maxPerMinute` is falsy in JS and falls back to the
default. -/
def refillTokens (st : PipelineState) (maxPerMinute now : Nat) : Nat :=
  if 60000 ≤ now - st.lastRefill then
    if maxPerMinute = 0 then DEFAULT_MAX_DELETES_PER_MINUTE else maxPerMinute
  else st.tokens

/-- The `lastRefill` timestamp after the refill step. -/
def refillLastRefill (st : PipelineState) (now : Nat) : Nat :=
  if 60000 ≤ now - st.lastRefill then now else st.lastRefill

/-- `Math.min(...matches.map(m => m.safety.maxDeletesPerMinute))` over a
non-empty match list (main.js line 95). -/
def minSafetyRate (m0 : Match) (ms : List Match) : Nat :=
  ms.foldl (fun acc m => Nat.min acc m.safety.maxDeletesPerMinute)
    m0.safety.maxDeletesPerMinute

/-- The enqueue request `processDeletion` builds (main.js lines 99-104 and
116-121). -/
def enqueueReqFor (url : String) (mergedActions : Actions) (m0 : Match) : EnqueueReq :=
  { url := url, hostname := extractHostname url, actions := mergedActions,
    ruleIdMatched := some m0.ruleId }

/-- `processDeletion(url, trigger)` from main.js lines 75-125, as a state
transformer: no-op when paused, recently processed, unmatched, or gated by
timing; on rate-limit exhaustion enqueue to the buffer instead of executing;
otherwise mark the URL processed, execute the merged plan (outcomes supplied
by `env`), append an audit-log entry, and enqueue to the buffer when the
execution result's `success` flag is false.  `now` is the clock, `freshId`
the UUID a new buffer entry would receive. -/
def processDeletion (st : PipelineState) (url : String) (trigger : Trigger) (now : Nat)
    (freshId : String) (env : ExecEnv) : PipelineState :=
  if st.paused then st
  else if wasRecentlyProcessed st.recentlyProcessed url now then st
  else
    match evaluateUrl st.compiledRules url with
    | [] => st
    | m0 :: ms =>
      if !(triggerEnabled trigger (mergeTiming (m0 :: ms))) then st
      else if 0 < refillTokens st (minSafetyRate m0 ms) now then
        { st with
          tokens := refillTokens st (minSafetyRate m0 ms) now - 1
          lastRefill := refillLastRefill st now
          recentlyProcessed := markProcessed st.recentlyProcessed url now
          actionLog := logAction st.actionLog
            { timestamp := now, url := url, ruleNames := (m0 :: ms).map Match.ruleName,
              actions := mergeActions (m0 :: ms),
              resultSuccess := (executeActions url (mergeActions (m0 :: ms)) env).success }
          buffer :=
            if (executeActions url (mergeActions (m0 :: ms)) env).success then st.buffer
            else enqueue st.buffer (enqueueReqFor url (mergeActions (m0 :: ms)) m0) now freshId }
      else
        { st with
          tokens := refillTokens st (minSafetyRate m0 ms) now
          lastRefill := refillLastRefill st now
          buffer := enqueue st.buffer (enqueueReqFor url (mergeActions (m0 :: ms)) m0) now freshId }

/-- C8: when `processDeletion` reaches execution (not paused, not recently
processed, matched, trigger enabled, token acquired) and the execution
result's `success` flag is false, it appends exactly one retry-buffer entry
for that URL, created with `attempts = 0` and status `pending`; when the
execution succeeds, the buffer is unchanged. -/
theorem processDeletion_c8 :
    ∀ (st : PipelineState) (url : String) (trigger : Trigger) (now : Nat)
      (freshId : String) (env : ExecEnv) (m0 : Match) (ms : List Match),
      st.paused = false →
      wasRecentlyProcessed st.recentlyProcessed url now = false →
      evaluateUrl st.compiledRules url = m0 :: ms →
      triggerEnabled trigger (mergeTiming (m0 :: ms)) = true →
      0 < refillTokens st (minSafetyRate m0 ms) now →
      (∀ e ∈ st.buffer, isPendingFor url e = false) →
      st.buffer.length < BUFFER_MAX_ENTRIES →
      ((executeActions url (mergeActions (m0 :: ms)) env).success = false →
        (processDeletion st url trigger now freshId env).buffer =
          st.buffer ++
            [newBufferEntry (enqueueReqFor url (mergeActions (m0 :: ms)) m0) now freshId]
        ∧ (newBufferEntry (enqueueReqFor url (mergeActions (m0 :: ms)) m0) now
            freshId).attempts = 0
        ∧ (newBufferEntry (enqueueReqFor url (mergeActions (m0 :: ms)) m0) now
            freshId).status = BufStatus.pending
        ∧ countPending (processDeletion st url trigger now freshId env).buffer url =
            countPending st.buffer url + 1)
      ∧ ((executeActions url (mergeActions (m0 :: ms)) env).success = true →
        (processDeletion st url trigger now freshId env).buffer = st.buffer) := by
  intro st url trigger now freshId env m0 ms hpause hrecent hmatches htrig htok hnopending hlen
  have hbuf : (processDeletion st url trigger now freshId env).buffer =
      (if (executeActions url (mergeActions (m0 :: ms)) env).success then st.buffer
       else enqueue st.buffer (enqueueReqFor url (mergeActions (m0 :: ms)) m0) now freshId) := by
    simp only [processDeletion, hpause, Bool.false_eq_true, if_false, hrecent, hmatches,
      htrig, Bool.not_true]
    rw [if_pos htok]
  have hp : enqueuePending (enqueueReqFor url (mergeActions (m0 :: ms)) m0) now st.buffer
      = none :=
    (enqueuePending_none_iff _ _ _).mpr (fun e he => hnopending e he)
  constructor
  · intro hfail
    have henq : enqueue st.buffer (enqueueReqFor url (mergeActions (m0 :: ms)) m0) now freshId
        = st.buffer ++
          [newBufferEntry (enqueueReqFor url (mergeActions (m0 :: ms)) m0) now freshId] := by
      rw [enqueue, hp]
      rw [if_neg (by rw [List.length_append, List.length_singleton]; omega)]
    rw [hbuf, if_neg (by rw [hfail]; exact Bool.false_ne_true), henq]
    have hzero : st.buffer.filter (isPendingFor url) = [] :=
      List.filter_eq_nil_iff.mpr (fun e he => by simp [hnopending e he])
    have hnew : isPendingFor url
        (newBufferEntry (enqueueReqFor url (mergeActions (m0 :: ms)) m0) now freshId)
        = true := by
      simp [isPendingFor, newBufferEntry, enqueueReqFor]
    refine ⟨rfl, rfl, rfl, ?_⟩
    rw [countPending, countPending, List.filter_append, hzero, List.length_append]
    simp [hnew, hzero]
  · intro hsucc
    rw [hbuf, if_pos hsucc]

/-- The pipeline state used by the C8 witness. -/
def c8State : PipelineState :=
  { paused := false, recentlyProcessed := [], compiledRules := [demoRule], tokens := 60,
    lastRefill := 0, buffer := [], actionLog := [] }

/-- Capability outcomes forcing the deletion to fail, used by the C8
witness. -/
def c8Env : ExecEnv :=
  { histOutcomes := [false], siteRemoveOk := true, cacheRateLimited := false,
    cacheRemoveOk := true }

theorem processDeletion_c8_witness :
    (processDeletion c8State "https://example.com/page" Trigger.asap 0 "b1" c8Env).buffer =
      [newBufferEntry
        (enqueueReqFor "https://example.com/page" (mergeActions [toMatch demoRule])
          (toMatch demoRule)) 0 "b1"] := by
  have h := (processDeletion_c8 c8State "https://example.com/page" Trigger.asap 0 "b1" c8Env
    (toMatch demoRule) [] (by decide) (by decide) (by decide) (by decide) (by decide)
    (by intro e he; cases he) (by decide)).1 (by decide)
  simpa using h.1

/-- The `match` object of a rule as seen by `validateRule`: `none` in
`urlRegex` models a missing or non-array value, as does `none` in
`excludeRegex`. -/
structure ValMatch where
  urlRegex : Option (List String)
  excludeRegex : Option (List String)
deriving DecidableEq, Repr

/-- The `timing` object as seen by `validateRule`; JS numbers are modelled
as integers and `none` in `periodicMinutes` models a null/absent value. -/
structure ValTiming where
  asap : Bool
  onTabClose : Bool
  onBrowserClose : Bool
  periodicMinutes : Option Int
deriving DecidableEq, Repr

/-- The `safety` object as seen by `validateRule`; `none` models an absent
or non-numeric field. -/
structure ValSafety where
  maxDeletesPerMinute : Option Int
  cooldownSeconds : Option Int
deriving DecidableEq, Repr

/-- A rule record as seen by `validateRule`: every container object may be
absent (`none`), and `none` in `id`/`name` models a missing or non-string
value.  The `actions` object is its entry list, as iterated by
`Object.entries`. -/
structure ValRule where
  id : Option String
  name : Option String
  matchSpec : Option ValMatch
  actions : Option (List (String × String))
  timing : Option ValTiming
  safety : Option ValSafety
deriving DecidableEq, Repr

/-- Model of JS `String.prototype.trim`. -/
def strTrim (s : String) : String :=
  String.mk (((s.data.dropWhile Char.isWhitespace).reverse.dropWhile Char.isWhitespace).reverse)

/-- Error message for a rule without a valid id. -/
def idMsg : String := "Rule must have a string id"

/-- Error message for a rule without a non-empty name. -/
def nameMsg : String := "Rule must have a non-empty name"

/-- Error message for a rule without include patterns. -/
def urlRegexMsg : String := "Rule must have at least one URL regex pattern"

/-- Error message for an include pattern that fails to compile. -/
def invalidUrlRegexMsg (p err : String) : String :=
  "Invalid URL regex \"" ++ (p ++ ("\": " ++ err))

/-- Error message for an exclude pattern that fails to compile. -/
def invalidExcludeRegexMsg (p err : String) : String :=
  "Invalid exclude regex \"" ++ (p ++ ("\": " ++ err))

/-- Error message for an action value other than delete/keep. -/
def invalidActionValueMsg (v k : String) : String :=
  "Invalid action value \"" ++ (v ++ ("\" for \"" ++ (k ++ "\". Must be \"delete\" or \"keep\".")))

/-- Error message of the at-least-one-delete-action invariant. -/
def deleteActionMsg : String := "Rule must have at least one action set to \"delete\""

/-- Error message of the at-least-one-trigger invariant. -/
def triggerMsg : String := "Rule must have at least one timing trigger enabled"

/-- Error message for an out-of-range `periodicMinutes`. -/
def periodicMsg : String := "periodicMinutes must be a number >= 1"

/-- Error message for an invalid `maxDeletesPerMinute`. -/
def maxDeletesMsg : String := "maxDeletesPerMinute must be a positive number"

/-- Error message for an invalid `cooldownSeconds`. -/
def cooldownMsg : String := "cooldownSeconds must be a non-negative number"

/-- The id check of `validateRule` (rule-schema.js lines 55-57). -/
def idErrors (rule : ValRule) : List String :=
  match rule.id with
  | none => [idMsg]
  | some s => if s = "" then [idMsg] else []

/-- The name check (rule-schema.js lines 58-60). -/
def nameErrors (rule : ValRule) : List String :=
  match rule.name with
  | none => [nameMsg]
  | some s => if s = "" ∨ strTrim s = "" then [nameMsg] else []

/-- The include-pattern checks (rule-schema.js lines 61-70): a missing match
object, missing array, or empty array is one error; otherwise every pattern
that fails to compile is reported. -/
def matchErrors (rule : ValRule) : List String :=
  match rule.matchSpec with
  | none => [urlRegexMsg]
  | some m =>
    match m.urlRegex with
    | none => [urlRegexMsg]
    | some [] => [urlRegexMsg]
    | some ps =>
      ps.filterMap (fun p => ((compileRegex p).error).map (invalidUrlRegexMsg p))

/-- The exclude-pattern checks (rule-schema.js lines 71-78), applied only
when the match object and an exclude array are present. -/
def excludeErrors (rule : ValRule) : List String :=
  match rule.matchSpec with
  | none => []
  | some m =>
    match m.excludeRegex with
    | none => []
    | some ps =>
      ps.filterMap (fun p => ((compileRegex p).error).map (invalidExcludeRegexMsg p))

/-- The action checks (rule-schema.js lines 80-91), applied only when the
`actions` object is present: every non-delete/keep value is reported, and
the at-least-one-delete invariant is checked over the entries. -/
def actionErrors (rule : ValRule) : List String :=
  match rule.actions with
  | none => []
  | some entries =>
    (entries.filterMap (fun kv =>
      if kv.2 = "delete" ∨ kv.2 = "keep" then none
      else some (invalidActionValueMsg kv.2 kv.1)))
    ++ (if entries.any (fun kv => kv.2 == "delete") then [] else [deleteActionMsg])

/-- The timing checks (rule-schema.js lines 93-104), applied only when the
`timing` object is present: at least one trigger must be enabled (a positive
`periodicMinutes` counts), and a non-null `periodicMinutes` must be a number
of at least 1. -/
def timingErrors (rule : ValRule) : List String :=
  match rule.timing with
  | none => []
  | some t =>
    (if t.asap || t.onTabClose || t.onBrowserClose ||
        (match t.periodicMinutes with
         | some p => decide (0 < p)
         | none => false) then []
     else [triggerMsg])
    ++ (match t.periodicMinutes with
        | some p => if p < 1 then [periodicMsg] else []
        | none => [])

/-- The safety checks (rule-schema.js lines 106-113), applied only when the
`safety` object is present. -/
def safetyErrors (rule : ValRule) : List String :=
  match rule.safety with
  | none => []
  | some s =>
    (match s.maxDeletesPerMinute with
     | none => [maxDeletesMsg]
     | some v => if v < 1 then [maxDeletesMsg] else [])
    ++ (match s.cooldownSeconds with
        | none => [cooldownMsg]
        | some v => if v < 0 then [cooldownMsg] else [])

/-- The full error list collected by `validateRule`, in source order. -/
def validateRuleErrors (rule : ValRule) : List String :=
  idErrors rule ++ nameErrors rule ++ matchErrors rule ++ excludeErrors rule ++
    actionErrors rule ++ timingErrors rule ++ safetyErrors rule

/-- `validateRule(rule)` from rule-schema.js lines 52-116: the collected
violations and `valid = errors.length === 0`. -/
def validateRule (rule : ValRule) : Bool × List String :=
  ((validateRuleErrors rule).isEmpty, validateRuleErrors rule)

theorem invalidUrlRegexMsg_head (p err : String) :
    (invalidUrlRegexMsg p err).data.head? = some 'I' := rfl

theorem invalidExcludeRegexMsg_head (p err : String) :
    (invalidExcludeRegexMsg p err).data.head? = some 'I' := rfl

theorem invalidActionValueMsg_head (v k : String) :
    (invalidActionValueMsg v k).data.head? = some 'I' := rfl

theorem not_mem_matchErrors (rule : ValRule) (m : String) (hs : m ≠ urlRegexMsg)
    (hh : m.data.head? ≠ some 'I') : m ∉ matchErrors rule := by
  intro h
  unfold matchErrors at h
  rcases hms : rule.matchSpec with _ | ms
  · rw [hms] at h
    simp at h
    exact hs h
  · rw [hms] at h
    dsimp only at h
    rcases hur : ms.urlRegex with _ | ps
    · rw [hur] at h
      simp at h
      exact hs h
    · rw [hur] at h
      cases ps with
      | nil =>
        simp at h
        exact hs h
      | cons p ps' =>
        rw [List.mem_filterMap] at h
        obtain ⟨q, -, hq⟩ := h
        rw [Option.map_eq_some'] at hq
        obtain ⟨err, -, heq⟩ := hq
        exact hh (heq ▸ invalidUrlRegexMsg_head q err)

theorem not_mem_excludeErrors (rule : ValRule) (m : String)
    (hh : m.data.head? ≠ some 'I') : m ∉ excludeErrors rule := by
  intro h
  unfold excludeErrors at h
  rcases hms : rule.matchSpec with _ | ms
  · rw [hms] at h
    cases h
  · rw [hms] at h
    dsimp only at h
    rcases hex : ms.excludeRegex with _ | ps
    · rw [hex] at h
      cases h
    · rw [hex] at h
      rw [List.mem_filterMap] at h
      obtain ⟨q, -, hq⟩ := h
      rw [Option.map_eq_some'] at hq
      obtain ⟨err, -, heq⟩ := hq
      exact hh (heq ▸ invalidExcludeRegexMsg_head q err)

theorem not_mem_idErrors (rule : ValRule) (m : String) (hs : m ≠ idMsg) :
    m ∉ idErrors rule := by
  intro h
  unfold idErrors at h
  rcases hid : rule.id with _ | s
  · rw [hid] at h
    simp at h
    exact hs h
  · rw [hid] at h
    dsimp only at h
    by_cases hse : s = ""
    · rw [if_pos hse] at h
      simp at h
      exact hs h
    · rw [if_neg hse] at h
      simp at h

theorem not_mem_nameErrors (rule : ValRule) (m : String) (hs : m ≠ nameMsg) :
    m ∉ nameErrors rule := by
  intro h
  unfold nameErrors at h
  rcases hn : rule.name with _ | s
  · rw [hn] at h
    simp at h
    exact hs h
  · rw [hn] at h
    dsimp only at h
    by_cases hse : s = "" ∨ strTrim s = ""
    · rw [if_pos hse] at h
      simp at h
      exact hs h
    · rw [if_neg hse] at h
      simp at h

theorem not_mem_actionErrors (rule : ValRule) (m : String) (hd : m ≠ deleteActionMsg)
    (hh : m.data.head? ≠ some 'I') : m ∉ actionErrors rule := by
  intro h
  unfold actionErrors at h
  rcases ha : rule.actions with _ | entries
  · rw [ha] at h
    simp at h
  · rw [ha] at h
    dsimp only at h
    rw [List.mem_append] at h
    rcases h with h | h
    · rw [List.mem_filterMap] at h
      obtain ⟨kv, -, hkv⟩ := h
      by_cases hv : kv.2 = "delete" ∨ kv.2 = "keep"
      · rw [if_pos hv] at hkv
        cases hkv
      · rw [if_neg hv] at hkv
        injection hkv with heq
        exact hh (heq ▸ invalidActionValueMsg_head kv.2 kv.1)
    · by_cases hd2 : entries.any (fun kv => kv.2 == "delete") = true
      · rw [if_pos hd2] at h
        simp at h
      · rw [if_neg hd2] at h
        simp at h
        exact hd h

theorem not_mem_timingErrors (rule : ValRule) (m : String) (ht : m ≠ triggerMsg)
    (hp : m ≠ periodicMsg) : m ∉ timingErrors rule := by
  intro h
  unfold timingErrors at h
  rcases htm : rule.timing with _ | t
  · rw [htm] at h
    simp at h
  · rw [htm] at h
    dsimp only at h
    rw [List.mem_append] at h
    rcases h with h | h
    · by_cases hc : (t.asap || t.onTabClose || t.onBrowserClose ||
          (match t.periodicMinutes with
           | some p => decide (0 < p)
           | none => false)) = true
      · rw [if_pos hc] at h
        simp at h
      · rw [if_neg hc] at h
        simp at h
        exact ht h
    · rcases hpm : t.periodicMinutes with _ | p
      · rw [hpm] at h
        simp at h
      · rw [hpm] at h
        dsimp only at h
        by_cases hlt : p < 1
        · rw [if_pos hlt] at h
          simp at h
          exact hp h
        · rw [if_neg hlt] at h
          simp at h

theorem not_mem_safetyErrors (rule : ValRule) (m : String) (hm : m ≠ maxDeletesMsg)
    (hc : m ≠ cooldownMsg) : m ∉ safetyErrors rule := by
  intro h
  unfold safetyErrors at h
  rcases hs : rule.safety with _ | s
  · rw [hs] at h
    simp at h
  · rw [hs] at h
    dsimp only at h
    rw [List.mem_append] at h
    rcases h with h | h
    · rcases hmd : s.maxDeletesPerMinute with _ | v
      · rw [hmd] at h
        simp at h
        exact hm h
      · rw [hmd] at h
        dsimp only at h
        by_cases hlt : v < 1
        · rw [if_pos hlt] at h
          simp at h
          exact hm h
        · rw [if_neg hlt] at h
          simp at h
    · rcases hcd : s.cooldownSeconds with _ | v
      · rw [hcd] at h
        simp at h
        exact hc h
      · rw [hcd] at h
        dsimp only at h
        by_cases hlt : v < 0
        · rw [if_pos hlt] at h
          simp at h
          exact hc h
        · rw [if_neg hlt] at h
          simp at h

/-- Rule with no `actions`, `timing` or `safety` containers at all, used by
the C10 theorem's concrete clause. -/
def c10Rule : ValRule :=
  { id := some "r1", name := some "Rule",
    matchSpec := some { urlRegex := some ["example"], excludeRegex := none },
    actions := none, timing := none, safety := none }

/-- C10: `validateRule` applies the action and timing checks only when the
corresponding container object is present — a rule with no `actions` object
is never reported as violating the at-least-one-delete invariant, a rule
with no `timing` object is never reported as violating the
at-least-one-trigger invariant, and such a rule is reported `valid` when the
remaining checks pass. -/
theorem validateRule_c10 :
    (∀ rule : ValRule, rule.actions = none → deleteActionMsg ∉ (validateRule rule).2)
    ∧ (∀ rule : ValRule, rule.timing = none → triggerMsg ∉ (validateRule rule).2)
    ∧ validateRule c10Rule = (true, []) := by
  refine ⟨?_, ?_, by decide⟩
  · intro rule hact h
    have hae : actionErrors rule = [] := by
      unfold actionErrors
      rw [hact]
    rw [validateRule] at h
    simp only [validateRuleErrors, hae, List.append_nil, List.mem_append,
      List.not_mem_nil, or_false] at h
    rcases h with ((((h | h) | h) | h) | h) | h
    · exact not_mem_idErrors rule deleteActionMsg (by decide) h
    · exact not_mem_nameErrors rule deleteActionMsg (by decide) h
    · exact not_mem_matchErrors rule deleteActionMsg (by decide) (by decide) h
    · exact not_mem_excludeErrors rule deleteActionMsg (by decide) h
    · exact not_mem_timingErrors rule deleteActionMsg (by decide) (by decide) h
    · exact not_mem_safetyErrors rule deleteActionMsg (by decide) (by decide) h
  · intro rule htim h
    have hte : timingErrors rule = [] := by
      unfold timingErrors
      rw [htim]
    rw [validateRule] at h
    simp only [validateRuleErrors, hte, List.append_nil, List.mem_append,
      List.not_mem_nil, or_false] at h
    rcases h with ((((h | h) | h) | h) | h) | h
    · exact not_mem_idErrors rule triggerMsg (by decide) h
    · exact not_mem_nameErrors rule triggerMsg (by decide) h
    · exact not_mem_matchErrors rule triggerMsg (by decide) (by decide) h
    · exact not_mem_excludeErrors rule triggerMsg (by decide) h
    · exact not_mem_actionErrors rule triggerMsg (by decide) (by decide) h
    · exact not_mem_safetyErrors rule triggerMsg (by decide) (by decide) h

theorem validateRule_c10_witness :
    c10Rule.actions = none ∧ c10Rule.timing = none
    ∧ deleteActionMsg ∉ (validateRule c10Rule).2
    ∧ triggerMsg ∉ (validateRule c10Rule).2 :=
  ⟨rfl, rfl, validateRule_c10.1 c10Rule rfl, validateRule_c10.2.1 c10Rule rfl⟩

end ShadowLog
